import Mathlib

set_option autoImplicit false

namespace PrefectInit

/-!
Shallow embedding of `src/cli/__init__.py` of the `prefect-init` scaffolding
tool.  The process environment (`os.environ`) is modelled as an association
list of string key/value pairs with Python-dict semantics: an update replaces
the value of the first matching key in place, or appends a fresh key at the
end; `pop(k, None)` deletes the key and never raises.
-/

/-! ## Environment model (`os.environ`) -/

abbrev Env := List (String × String)

/-- Dictionary lookup: value of the first pair whose key is `k`. -/
def envGet (e : Env) (k : String) : Option String :=
  match e with
  | [] => none
  | (k2, v) :: rest => if k2 = k then some v else envGet rest k

/-- Dictionary assignment `env[k] = v`: replace the first binding of `k`
in place, or append `(k, v)` when `k` is absent. -/
def envSet (e : Env) (k v : String) : Env :=
  match e with
  | [] => [(k, v)]
  | (k2, v2) :: rest => if k2 = k then (k2, v) :: rest else (k2, v2) :: envSet rest k v

/-- `env.pop(k, None)`: remove every binding of `k`; absent keys are fine. -/
def envPop (e : Env) (k : String) : Env :=
  match e with
  | [] => []
  | (k2, v2) :: rest => if k2 = k then envPop rest k else (k2, v2) :: envPop rest k

/-- `env.update(u)`: apply the assignments of `u` left to right. -/
def envUpdate (e : Env) (u : List (String × String)) : Env :=
  match u with
  | [] => e
  | (k, v) :: rest => envUpdate (envSet e k v) rest

/-- `[env.pop(k, None) for k in ks]`. -/
def envPopAll (e : Env) (ks : List String) : Env :=
  match ks with
  | [] => e
  | k :: rest => envPopAll (envPop e k) rest

/-- Value the update list `u` assigns to `k` (the last assignment wins),
`none` when `u` does not mention `k`. -/
def updLookup (u : List (String × String)) (k : String) : Option String :=
  match u with
  | [] => none
  | (k2, v) :: rest =>
      match updLookup rest k with
      | some v2 => some v2
      | none => if k2 = k then some v else none

/-- Two environments are equivalent when they bind every key identically. -/
def envEquiv (e1 e2 : Env) : Prop := ∀ k, envGet e1 k = envGet e2 k

theorem envGet_envSet (e : Env) (k v k' : String) :
    envGet (envSet e k v) k' = if k = k' then some v else envGet e k' := by
  induction e with
  | nil =>
      simp only [envSet, envGet]
  | cons p rest ih =>
      obtain ⟨k2, v2⟩ := p
      by_cases h2 : k2 = k
      · subst h2
        by_cases h' : k2 = k'
        · subst h'
          simp [envSet, envGet]
        · simp [envSet, envGet, h']
      · by_cases h' : k2 = k'
        · subst h'
          have hkk : ¬ k = k2 := fun h => h2 h.symm
          simp [envSet, envGet, h2, hkk]
        · simp [envSet, envGet, h2, h', ih]

theorem envGet_envPop (e : Env) (k k' : String) :
    envGet (envPop e k) k' = if k = k' then none else envGet e k' := by
  induction e with
  | nil => simp [envPop, envGet]
  | cons p rest ih =>
      obtain ⟨k2, v2⟩ := p
      by_cases h2 : k2 = k
      · subst h2
        by_cases h' : k2 = k'
        · subst h'
          simp [envPop, envGet, ih]
        · simp [envPop, envGet, h', ih]
      · by_cases h' : k2 = k'
        · subst h'
          have hkk : ¬ k = k2 := fun h => h2 h.symm
          simp [envPop, envGet, h2, hkk, ih]
        · simp [envPop, envGet, h2, h', ih]

theorem envGet_envUpdate (e : Env) (u : List (String × String)) (k : String) :
    envGet (envUpdate e u) k =
      match updLookup u k with
      | some v => some v
      | none => envGet e k := by
  induction u generalizing e with
  | nil => simp [envUpdate, updLookup]
  | cons p rest ih =>
      obtain ⟨k2, v2⟩ := p
      simp only [envUpdate, updLookup, ih (envSet e k2 v2)]
      cases hrest : updLookup rest k with
      | some v3 => rfl
      | none =>
          simp only [envGet_envSet]
          by_cases h2 : k2 = k
          · subst h2; simp
          · simp [h2]

theorem envGet_envPopAll (e : Env) (ks : List String) (k : String) :
    envGet (envPopAll e ks) k = if k ∈ ks then none else envGet e k := by
  induction ks generalizing e with
  | nil => simp [envPopAll]
  | cons k2 rest ih =>
      simp only [envPopAll, ih (envPop e k2), envGet_envPop]
      by_cases hm : k ∈ rest
      · simp [hm]
      · by_cases h2 : k2 = k
        · subst h2; simp [hm]
        · have : ¬ k ∈ k2 :: rest := by
            intro hc
            rcases List.mem_cons.mp hc with hc | hc
            · exact h2 hc.symm
            · exact hm hc
          simp [hm, h2, this]

/-! ## `modified_environ` context manager -/

/-- State computed at entry of `modified_environ`: `update_after` snapshots the
original values of the stomped keys (keys of `update` or of `remove` that
currently exist), `remove_after` lists the `update` keys that did not exist. -/
structure EnvSnapshot where
  update_after : List (String × String)
  remove_after : List String
deriving Repr, DecidableEq

/-- The snapshot `modified_environ` computes before the `try` block. -/
def snapshotOf (env : Env) (update : List (String × String)) (remove : List String) :
    EnvSnapshot :=
  { update_after :=
      ((update.map Prod.fst ++ remove).dedup).filterMap
        (fun k => (envGet env k).map (fun v => (k, v))),
    remove_after := (update.map Prod.fst).filter (fun k => (envGet env k).isNone) }

/-- Body of `modified_environ` before `yield`: `env.update(update)` then
`[env.pop(k, None) for k in remove]`. -/
def modifiedEnvironEnter (env : Env) (update : List (String × String))
    (remove : List String) : Env :=
  envPopAll (envUpdate env update) remove

/-- The `finally` block: `env.update(update_after)` then
`[env.pop(k, None) for k in remove_after]`. -/
def modifiedEnvironExit (snap : EnvSnapshot) (env : Env) : Env :=
  envPopAll (envUpdate env snap.update_after) snap.remove_after

/-- Running a body under `modified_environ`: the snapshot is taken, the entry
mutations are applied, the body transforms the environment and reports whether
it raised, and the `finally` block runs on the body's resulting environment in
either case. -/
def modified_environ (env : Env) (update : List (String × String)) (remove : List String)
    (body : Env → Env × Bool) : Env × Bool :=
  let r := body (modifiedEnvironEnter env update remove)
  (modifiedEnvironExit (snapshotOf env update remove) r.1, r.2)

theorem envGet_enter (env : Env) (update : List (String × String)) (remove : List String)
    (k : String) :
    envGet (modifiedEnvironEnter env update remove) k =
      if k ∈ remove then none
      else match updLookup update k with
        | some v => some v
        | none => envGet env k := by
  simp only [modifiedEnvironEnter, envGet_envPopAll, envGet_envUpdate]

theorem envGet_exit (snap : EnvSnapshot) (env : Env) (k : String) :
    envGet (modifiedEnvironExit snap env) k =
      if k ∈ snap.remove_after then none
      else match updLookup snap.update_after k with
        | some v => some v
        | none => envGet env k := by
  simp only [modifiedEnvironExit, envGet_envPopAll, envGet_envUpdate]

theorem mem_remove_after (env : Env) (update : List (String × String))
    (remove : List String) (k : String) :
    k ∈ (snapshotOf env update remove).remove_after ↔
      k ∈ update.map Prod.fst ∧ envGet env k = none := by
  simp [snapshotOf, List.mem_filter, Option.isNone_iff_eq_none]

theorem updLookup_filterMap_get (ks : List String) (env : Env) (k : String) :
    updLookup (ks.filterMap (fun k2 => (envGet env k2).map (fun v => (k2, v)))) k =
      if k ∈ ks then envGet env k else none := by
  induction ks with
  | nil => simp [updLookup]
  | cons k0 rest ih =>
      by_cases hm : k ∈ rest
      · cases h0 : envGet env k0 with
        | none => simp [h0, ih, hm]
        | some v0 =>
            simp only [List.filterMap_cons, h0, Option.map_some, updLookup, ih]
            by_cases hk : k ∈ k0 :: rest
            · simp only [hm, if_true, hk, if_true]
              cases hg : envGet env k with
              | none =>
                  by_cases h00 : k0 = k
                  · subst h00; rw [h0] at hg; cases hg
                  · simp [h00]
              | some v => rfl
            · exact absurd (List.mem_cons_of_mem k0 hm) hk
      · by_cases h00 : k0 = k
        · subst h00
          cases h0 : envGet env k0 with
          | none => simp [h0, ih, hm]
          | some v0 =>
              simp only [List.filterMap_cons, h0, Option.map_some, updLookup, ih, hm,
                if_false, if_neg hm]
              simp [List.mem_cons, h0]
        · cases h0 : envGet env k0 with
          | none =>
              have : ¬ k ∈ k0 :: rest := by
                intro hc
                rcases List.mem_cons.mp hc with hc | hc
                · exact h00 hc.symm
                · exact hm hc
              simp [h0, ih, hm, this]
          | some v0 =>
              have : ¬ k ∈ k0 :: rest := by
                intro hc
                rcases List.mem_cons.mp hc with hc | hc
                · exact h00 hc.symm
                · exact hm hc
              simp [List.filterMap_cons, h0, updLookup, ih, hm, this, h00]

theorem updLookup_update_after (env : Env) (update : List (String × String))
    (remove : List String) (k : String) :
    updLookup (snapshotOf env update remove).update_after k =
      if k ∈ update.map Prod.fst ++ remove then envGet env k else none := by
  simpa only [snapshotOf, List.mem_dedup] using
    updLookup_filterMap_get ((update.map Prod.fst ++ remove).dedup) env k

/-- Pointwise effect of running the `finally` block on any environment the
body left behind: update keys absent before the scope are removed, stomped
keys that existed before are restored to their original values, every other
key keeps the body's value (in particular a `remove` key absent before the
scope is not touched on exit). -/
theorem envGet_exit_snapshot (env envBody : Env) (update : List (String × String))
    (remove : List String) (k : String) :
    envGet (modifiedEnvironExit (snapshotOf env update remove) envBody) k =
      if k ∈ update.map Prod.fst ∧ envGet env k = none then none
      else if k ∈ update.map Prod.fst ++ remove ∧ (envGet env k).isSome then
        envGet env k
      else envGet envBody k := by
  rw [envGet_exit, updLookup_update_after]
  by_cases hra : k ∈ (snapshotOf env update remove).remove_after
  · obtain ⟨hu, hz⟩ := (mem_remove_after env update remove k).mp hra
    simp [hra, hu, hz]
  · have hur := (mem_remove_after env update remove k).not.mp hra
    simp only [if_neg hra]
    by_cases hs : k ∈ update.map Prod.fst ++ remove
    · cases hg : envGet env k with
      | none =>
          have hnU : k ∉ update.map Prod.fst := fun hu => hur ⟨hu, hg⟩
          simp [hs, hg, hnU]
      | some v => simp [hs, hg]
    · have hnU : k ∉ update.map Prod.fst := fun hu =>
        hs (List.mem_append.mpr (Or.inl hu))
      simp [hs, hnU]

theorem updLookup_eq_none (u : List (String × String)) (k : String)
    (h : k ∉ u.map Prod.fst) : updLookup u k = none := by
  induction u with
  | nil => rfl
  | cons p rest ih =>
      obtain ⟨k2, v2⟩ := p
      have hk2 : ¬ k2 = k := by
        intro hc
        exact h (by simp [hc])
      have hrest : k ∉ rest.map Prod.fst := fun hc => h (by simp [hc])
      simp [updLookup, ih hrest, hk2]

/-- Running the `finally` block on exactly the environment the entry mutations
produced restores every key to its pre-scope value. -/
theorem exit_enter_get (S : Env) (U : List (String × String)) (R : List String)
    (k : String) :
    envGet (modifiedEnvironExit (snapshotOf S U R) (modifiedEnvironEnter S U R)) k =
      envGet S k := by
  rw [envGet_exit_snapshot]
  by_cases hu : k ∈ U.map Prod.fst
  · cases hg : envGet S k with
    | none => simp [hu, hg]
    | some v =>
        have : k ∈ U.map Prod.fst ++ R := List.mem_append.mpr (Or.inl hu)
        simp [hu, hg, this]
  · by_cases hr : k ∈ R
    · cases hg : envGet S k with
      | none =>
          have hni : ¬ (k ∈ U.map Prod.fst ∧ envGet S k = none) := fun hc => hu hc.1
          simp [hg, hni, hu, envGet_enter, hr]
      | some v =>
          have : k ∈ U.map Prod.fst ++ R := List.mem_append.mpr (Or.inr hr)
          simp [hu, hg, this]
    · have hnm : k ∉ U.map Prod.fst ++ R := by
        intro hc
        rcases List.mem_append.mp hc with hc | hc
        · exact hu hc
        · exact hr hc
      simp [hu, hnm, envGet_enter, hr, updLookup_eq_none U k hu]

/-- C3: entering the scoped environment override and exiting it (normally or
through an exception) restores the environment to the pre-scope snapshot `S`
exactly, for every update map `U` and removal list `R`, whenever the wrapped
body leaves the environment as it found it. -/
theorem modified_environ_restores (S : Env) (U : List (String × String))
    (R : List String) (body : Env → Env × Bool) (hb : ∀ e, (body e).1 = e) :
    envEquiv (modified_environ S U R body).1 S := by
  intro k
  show envGet (modifiedEnvironExit (snapshotOf S U R)
      (body (modifiedEnvironEnter S U R)).1) k = envGet S k
  rw [hb]
  exact exit_enter_get S U R k

theorem modified_environ_restores_witness :
    envEquiv
      (modified_environ [("PATH", "/usr/bin"), ("HOME", "/root")]
        [("UV_VENV_SEED", "True"), ("HOME", "/tmp")] ["HOME", "ABSENT"]
        (fun e => (e, true))).1
      [("PATH", "/usr/bin"), ("HOME", "/root")] :=
  modified_environ_restores _ _ _ _ (fun _ => rfl)

/-- C8: a key present in both the update map and the removal list is absent
from the environment during the scope (the removal is applied after the
update), and on exit it is restored to its pre-scope state, whatever the
wrapped body did. -/
theorem modified_environ_update_and_remove (S : Env) (U : List (String × String))
    (R : List String) (body : Env → Env × Bool) (k : String)
    (h1 : k ∈ U.map Prod.fst) (h2 : k ∈ R) :
    envGet (modifiedEnvironEnter S U R) k = none ∧
    envGet (modified_environ S U R body).1 k = envGet S k := by
  constructor
  · simp [envGet_enter, h2]
  · show envGet (modifiedEnvironExit (snapshotOf S U R)
        (body (modifiedEnvironEnter S U R)).1) k = envGet S k
    rw [envGet_exit_snapshot]
    cases hg : envGet S k with
    | none => simp [h1, hg]
    | some v =>
        have : k ∈ U.map Prod.fst ++ R := List.mem_append.mpr (Or.inl h1)
        simp [h1, hg, this]

theorem modified_environ_update_and_remove_witness :
    envGet (modifiedEnvironEnter [("A", "1")] [("A", "2")] ["A"]) "A" = none ∧
    envGet (modified_environ [("A", "1")] [("A", "2")] ["A"]
      (fun e => (e, false))).1 "A" = envGet [("A", "1")] "A" :=
  modified_environ_update_and_remove [("A", "1")] [("A", "2")] ["A"]
    (fun e => (e, false)) "A" (by decide) (by decide)

/-- C10: scope exit restores only the affected keys; a change the wrapped body
makes to a key outside the update map and the removal list persists after the
scope exits, because no full environment snapshot is taken. -/
theorem modified_environ_frame (S : Env) (U : List (String × String))
    (R : List String) (body : Env → Env × Bool) (k : String)
    (h1 : k ∉ U.map Prod.fst) (h2 : k ∉ R) :
    envGet (modified_environ S U R body).1 k =
      envGet (body (modifiedEnvironEnter S U R)).1 k := by
  show envGet (modifiedEnvironExit (snapshotOf S U R)
      (body (modifiedEnvironEnter S U R)).1) k =
    envGet (body (modifiedEnvironEnter S U R)).1 k
  rw [envGet_exit_snapshot]
  have hnm : k ∉ U.map Prod.fst ++ R := by
    intro hc
    rcases List.mem_append.mp hc with hc | hc
    · exact h1 hc
    · exact h2 hc
  simp [h1, hnm]

theorem modified_environ_frame_witness :
    envGet (modified_environ [("A", "1")] [("B", "2")] ["C"]
      (fun e => (envSet e "X" "new", false))).1 "X" =
    envGet (envSet (modifiedEnvironEnter [("A", "1")] [("B", "2")] ["C"])
      "X" "new") "X" :=
  modified_environ_frame [("A", "1")] [("B", "2")] ["C"]
    (fun e => (envSet e "X" "new", false)) "X" (by decide) (by decide)

/-! ## Manifest model (`pyproject.toml` via `toml.load` / `toml.dump`)

A TOML document is modelled as a value tree: a string leaf or a table, a
table being an association list with Python-dict semantics (assignment
replaces in place or appends). `toml.dump (toml.load f)` round-trips the
tree, so the patch step is the pure document transformation below. -/

inductive Toml where
  | str (s : String)
  | table (kvs : List (String × Toml))

abbrev Doc := List (String × Toml)

/-- Table lookup `d[k]`. -/
def docGet (d : Doc) (k : String) : Option Toml :=
  match d with
  | [] => none
  | (k2, v) :: rest => if k2 = k then some v else docGet rest k

/-- Table assignment `d[k] = v` (replace in place, else append). -/
def docSet (d : Doc) (k : String) (v : Toml) : Doc :=
  match d with
  | [] => [(k, v)]
  | (k2, v2) :: rest => if k2 = k then (k2, v) :: rest else (k2, v2) :: docSet rest k v

/-- Lookup of key `k` inside a sub-table value. -/
def tomlSub (v : Toml) (k : String) : Option Toml :=
  match v with
  | .str _ => none
  | .table kvs => docGet kvs k

/-- The `tool.prefect` table `init` writes:
`{'home': './.prefect', 'profiles_path': './.prefect/profiles.toml'}`. -/
def prefectTable : Toml :=
  .table [("home", .str "./.prefect"),
          ("profiles_path", .str "./.prefect/profiles.toml")]

/-- The manifest-patch step of `init`: `pyproject['tool'] = {}` followed by
`pyproject['tool']['prefect'] = {home, profiles_path}`, then dump. -/
def patchManifest (d : Doc) : Doc :=
  let d1 := docSet d "tool" (.table [])
  docSet d1 "tool" (.table (docSet [] "prefect" prefectTable))

theorem docGet_docSet (d : Doc) (k : String) (v : Toml) (k' : String) :
    docGet (docSet d k v) k' = if k = k' then some v else docGet d k' := by
  induction d with
  | nil => simp only [docSet, docGet]
  | cons p rest ih =>
      obtain ⟨k2, v2⟩ := p
      by_cases h2 : k2 = k
      · subst h2
        by_cases h' : k2 = k'
        · subst h'
          simp [docSet, docGet]
        · simp [docSet, docGet, h']
      · by_cases h' : k2 = k'
        · subst h'
          have hkk : ¬ k = k2 := fun h => h2 h.symm
          simp [docSet, docGet, h2, hkk]
        · simp [docSet, docGet, h2, h', ih]

/-- C2: after the manifest-patch step the `tool.prefect` sub-table equals
exactly the two-field table `{home: "./.prefect",
profiles_path: "./.prefect/profiles.toml"}`, for every input document —
any pre-existing `tool.prefect` with different values is fully replaced,
not merged. -/
theorem patchManifest_tool_prefect (d : Doc) :
    (docGet (patchManifest d) "tool").bind (fun t => tomlSub t "prefect") =
      some (Toml.table [("home", Toml.str "./.prefect"),
        ("profiles_path", Toml.str "./.prefect/profiles.toml")]) := by
  show (docGet (docSet (docSet d "tool" (.table [])) "tool"
      (.table (docSet [] "prefect" prefectTable))) "tool").bind
      (fun t => tomlSub t "prefect") = _
  rw [docGet_docSet]
  simp [tomlSub, docSet, docGet, prefectTable]

/-- C1 counterexample: a manifest whose `tool` table holds an unrelated
`tool.other` entry loses that entry across the patch step, so the patch does
not preserve all content outside `tool.prefect`. -/
theorem patchManifest_drops_tool_other :
    (docGet [("tool", Toml.table [("other", Toml.str "keep")])] "tool").bind
        (fun t => tomlSub t "other") = some (Toml.str "keep") ∧
    (docGet (patchManifest [("tool", Toml.table [("other", Toml.str "keep")])])
        "tool").bind (fun t => tomlSub t "other") = none := by
  constructor
  · rfl
  · rfl

/-- C1 amended: the manifest-patch step preserves every top-level entry whose
key is not `tool`; the entire top-level `tool` table (including any unrelated
`tool.other` sub-table) is replaced wholesale by `{prefect: {home,
profiles_path}}`. -/
theorem patchManifest_frame (d : Doc) (k : String) (h : k ≠ "tool") :
    docGet (patchManifest d) k = docGet d k := by
  show docGet (docSet (docSet d "tool" (.table [])) "tool"
      (.table (docSet [] "prefect" prefectTable))) k = docGet d k
  have h2 : ¬ "tool" = k := fun hc => h hc.symm
  rw [docGet_docSet, if_neg h2, docGet_docSet, if_neg h2]

theorem patchManifest_frame_witness :
    docGet (patchManifest [("project", Toml.str "demo"),
      ("tool", Toml.table [("other", Toml.str "keep")])]) "project" =
    docGet [("project", Toml.str "demo"),
      ("tool", Toml.table [("other", Toml.str "keep")])] "project" :=
  patchManifest_frame _ "project" (by decide)

/-! ## Working-directory model (`ChangeDirectory`)

The process is modelled by its current working directory and the static set
of existing, accessible directories; `os.chdir` succeeds exactly on members
of that set and otherwise raises without changing state. The wrapped body may
move the working directory but — as in `init` — neither creates nor deletes
directories. -/

structure Sys where
  cwd : String
  dirs : List String
deriving Repr, DecidableEq

/-- `os.chdir(p)`: move to `p` when it exists, otherwise fail untouched. -/
def chdir (s : Sys) (p : String) : Option Sys :=
  if p ∈ s.dirs then some { s with cwd := p } else none

inductive CDResult where
  /-- Entry, body and exit all completed; `raised` records whether the body
  raised (the exception then propagates after `__exit__` ran). -/
  | ok (s : Sys) (raised : Bool)
  /-- `__enter__` raised on `os.chdir(target)`: body and `__exit__` never ran. -/
  | dirAccessError (s : Sys)
  /-- `__exit__` raised because the previous directory no longer exists. -/
  | exitChdirError (s : Sys)
deriving Repr, DecidableEq

/-- `with ChangeDirectory(target): body` — `__enter__` stores the previous
cwd and performs `os.chdir(target)`; if that raises, the body and `__exit__`
do not run. Otherwise the body runs (possibly raising) and `__exit__`
performs `os.chdir(previous)` on every exit path. -/
def withChangeDirectory (s : Sys) (target : String) (body : Sys → Sys × Bool) :
    CDResult :=
  match chdir s target with
  | none => .dirAccessError s
  | some s1 =>
      let r := body s1
      match chdir r.1 s.cwd with
      | some s3 => .ok s3 r.2
      | none => .exitChdirError r.1

/-- C4: for every working directory `D0` and existing target, entering and
exiting a `ChangeDirectory` scope leaves the working directory at `D0`, on
every exit path — also when the wrapped body raises — provided the body does
not create or delete directories. -/
theorem changeDirectory_restores (s : Sys) (target : String)
    (body : Sys → Sys × Bool) (h0 : s.cwd ∈ s.dirs) (h1 : target ∈ s.dirs)
    (hb : ∀ t, (body t).1.dirs = t.dirs) :
    withChangeDirectory s target body =
      .ok { (body { s with cwd := target }).1 with cwd := s.cwd }
        (body { s with cwd := target }).2 := by
  have hdirs : (body { s with cwd := target }).1.dirs = s.dirs :=
    hb { s with cwd := target }
  have hback : s.cwd ∈ (body { s with cwd := target }).1.dirs := by
    rw [hdirs]; exact h0
  simp only [withChangeDirectory, chdir, if_pos h1, if_pos hback]

theorem changeDirectory_restores_witness :
    withChangeDirectory ⟨"/home", ["/home", "/home/demo"]⟩ "/home/demo"
        (fun t => (t, true)) =
      .ok { (⟨"/home/demo", ["/home", "/home/demo"]⟩ : Sys) with cwd := "/home" }
        true :=
  changeDirectory_restores ⟨"/home", ["/home", "/home/demo"]⟩ "/home/demo"
    (fun t => (t, true)) (by decide) (by decide) (fun _ => rfl)

/-- C7: entering a `ChangeDirectory` scope whose target does not exist fails
with a directory-access error, leaves the working directory (whole state)
unchanged, and runs neither the body nor any exit restoration. -/
theorem changeDirectory_enter_fails (s : Sys) (target : String)
    (body : Sys → Sys × Bool) (h : target ∉ s.dirs) :
    withChangeDirectory s target body = .dirAccessError s := by
  simp only [withChangeDirectory, chdir, if_neg h]

theorem changeDirectory_enter_fails_witness :
    withChangeDirectory ⟨"/home", ["/home"]⟩ "/home/missing"
        (fun t => (t, false)) =
      .dirAccessError ⟨"/home", ["/home"]⟩ :=
  changeDirectory_enter_fails ⟨"/home", ["/home"]⟩ "/home/missing"
    (fun t => (t, false)) (by decide)

/-! ## The `init` command

`init` is embedded as a trace semantics over the exit codes of the three
external `uv` invocations. Each executed step is recorded in order; the
outcome distinguishes success, `typer.Exit(code=1)` raised on scaffold
failure, and an uncaught `CalledProcessError` escaping from the fallback
`uv add`. The environment threads through the `modified_environ` scope around
the scaffold call (the subprocess does not mutate the parent environment),
and the manifest records the patch step's effect. -/

inductive Step where
  | uvInit
  | enterProjectDir
  | copyTemplates
  | uvAddPrimary
  | uvAddFallback
  | patchStep
  | printSuccess
deriving Repr, DecidableEq

/-- Exit statuses of the external `uv` subprocesses. -/
structure World where
  uvInitExit : Nat
  uvAddExit : Nat
  uvAddFallbackExit : Nat
deriving Repr, DecidableEq

inductive InitOutcome where
  | success
  | exitCode (code : Nat)
  | calledProcessError
deriving Repr, DecidableEq

structure InitResult where
  steps : List Step
  outcome : InitOutcome
  env : Env
  manifest : Doc

/-- The `init` command. `subprocess.run(uv init ..., check=True)` happens
inside `modified_environ(UV_VENV_SEED="True")`; a nonzero exit raises
`CalledProcessError`, caught and turned into `typer.Exit(code=1)`, so no
later step runs. Otherwise, inside `ChangeDirectory(cwd / name)`, the
templates are copied, `uv add prefect --no-active` runs, on nonzero exit the
offline fallback runs, and a nonzero fallback exit raises out of `init`
before the manifest is touched; else the manifest is patched and success is
printed. -/
def initRun (w : World) (env0 : Env) (manifest0 : Doc) : InitResult :=
  let envAfter :=
    (modified_environ env0 [("UV_VENV_SEED", "True")] []
      (fun e => (e, w.uvInitExit ≠ 0))).1
  if w.uvInitExit ≠ 0 then
    { steps := [.uvInit], outcome := .exitCode 1,
      env := envAfter, manifest := manifest0 }
  else if w.uvAddExit = 0 then
    { steps := [.uvInit, .enterProjectDir, .copyTemplates, .uvAddPrimary,
        .patchStep, .printSuccess],
      outcome := .success, env := envAfter, manifest := patchManifest manifest0 }
  else if w.uvAddFallbackExit = 0 then
    { steps := [.uvInit, .enterProjectDir, .copyTemplates, .uvAddPrimary,
        .uvAddFallback, .patchStep, .printSuccess],
      outcome := .success, env := envAfter, manifest := patchManifest manifest0 }
  else
    { steps := [.uvInit, .enterProjectDir, .copyTemplates, .uvAddPrimary,
        .uvAddFallback],
      outcome := .calledProcessError, env := envAfter, manifest := manifest0 }

/-- C5: when the scaffold step succeeded, the primary `uv add prefect
--no-active` always runs; the offline fallback runs if and only if the
primary exited nonzero, and then only after the primary; and when both exit
nonzero, `init` ends with the propagated dependency-install error and the
manifest-patch step never runs. -/
theorem init_dependency_fallback (w : World) (env0 : Env) (m : Doc)
    (h : w.uvInitExit = 0) :
    Step.uvAddPrimary ∈ (initRun w env0 m).steps ∧
    (Step.uvAddFallback ∈ (initRun w env0 m).steps ↔ w.uvAddExit ≠ 0) ∧
    (w.uvAddExit ≠ 0 →
      List.Sublist [Step.uvAddPrimary, Step.uvAddFallback] (initRun w env0 m).steps) ∧
    (w.uvAddExit ≠ 0 → w.uvAddFallbackExit ≠ 0 →
      (initRun w env0 m).outcome = .calledProcessError ∧
      Step.patchStep ∉ (initRun w env0 m).steps) := by
  by_cases h1 : w.uvAddExit = 0
  · simp [initRun, h, h1]
  · by_cases h2 : w.uvAddFallbackExit = 0
    · refine ⟨?_, ?_, ?_, ?_⟩
      · simp [initRun, h, h1, h2]
      · simp [initRun, h, h1, h2]
      · intro _
        simp only [initRun, h, h1, h2]
        simp
        decide
      · intro _ hc
        exact absurd h2 hc
    · refine ⟨?_, ?_, ?_, ?_⟩
      · simp [initRun, h, h1, h2]
      · simp [initRun, h, h1, h2]
      · intro _
        simp only [initRun, h, h1, h2]
        simp
        decide
      · intro _ _
        constructor
        · simp [initRun, h, h1, h2]
        · simp [initRun, h, h1, h2]

theorem init_dependency_fallback_witness :
    Step.uvAddPrimary ∈ (initRun ⟨0, 1, 1⟩ [] []).steps ∧
    (Step.uvAddFallback ∈ (initRun ⟨0, 1, 1⟩ [] []).steps ↔ (1 : Nat) ≠ 0) ∧
    ((1 : Nat) ≠ 0 →
      List.Sublist [Step.uvAddPrimary, Step.uvAddFallback]
        (initRun ⟨0, 1, 1⟩ [] []).steps) ∧
    ((1 : Nat) ≠ 0 → (1 : Nat) ≠ 0 →
      (initRun ⟨0, 1, 1⟩ [] []).outcome = .calledProcessError ∧
      Step.patchStep ∉ (initRun ⟨0, 1, 1⟩ [] []).steps) :=
  init_dependency_fallback ⟨0, 1, 1⟩ [] [] (by decide)

/-- C6: when the external project-creation call exits nonzero, `init` ends
with `typer.Exit(code=1)` having executed only the scaffold attempt — no
directory change, template copy, dependency install or manifest patch — and
the environment is back to its pre-call state, the only undoing being the
scoped environment override's own restoration. -/
theorem init_scaffold_failure (w : World) (env0 : Env) (m : Doc)
    (h : w.uvInitExit ≠ 0) :
    (initRun w env0 m).outcome = .exitCode 1 ∧
    (initRun w env0 m).steps = [Step.uvInit] ∧
    envEquiv (initRun w env0 m).env env0 ∧
    (initRun w env0 m).manifest = m := by
  refine ⟨by simp [initRun, h], by simp [initRun, h], ?_, by simp [initRun, h]⟩
  intro k
  have : (initRun w env0 m).env =
      (modified_environ env0 [("UV_VENV_SEED", "True")] []
        (fun e => (e, w.uvInitExit ≠ 0))).1 := by
    simp [initRun, h]
  rw [this]
  exact exit_enter_get env0 [("UV_VENV_SEED", "True")] [] k

theorem init_scaffold_failure_witness :
    (initRun ⟨2, 0, 0⟩ [("PATH", "/usr/bin")] [("project", Toml.str "demo")]).outcome
        = .exitCode 1 ∧
    (initRun ⟨2, 0, 0⟩ [("PATH", "/usr/bin")] [("project", Toml.str "demo")]).steps
        = [Step.uvInit] ∧
    envEquiv (initRun ⟨2, 0, 0⟩ [("PATH", "/usr/bin")]
        [("project", Toml.str "demo")]).env [("PATH", "/usr/bin")] ∧
    (initRun ⟨2, 0, 0⟩ [("PATH", "/usr/bin")] [("project", Toml.str "demo")]).manifest
        = [("project", Toml.str "demo")] :=
  init_scaffold_failure ⟨2, 0, 0⟩ [("PATH", "/usr/bin")]
    [("project", Toml.str "demo")] (by decide)

/-! ## Filesystem model (`copy_template_files`)

A filesystem node is a file with contents or a directory with an ordered
child list (names unique on a real filesystem; child order is a
representation artifact of the model). Paths are lists of components.
`mkdirp` embeds `Path.mkdir(exist_ok=True, parents=True)` and `copyInto`
embeds `shutil.copytree(source, destination, dirs_exist_ok=True)`:
existing directories are merged into, files are overwritten, and a
file/directory mismatch is an error (`none`). -/

inductive FSNode where
  | file (content : String)
  | dir (children : List (String × FSNode))

/-- First child of the given name. -/
def lookupChild (cs : List (String × FSNode)) (name : String) : Option FSNode :=
  match cs with
  | [] => none
  | (n2, m) :: rest => if n2 = name then some m else lookupChild rest name

/-- Replace the first child of the given name in place. -/
def replaceChild (cs : List (String × FSNode)) (name : String) (n : FSNode) :
    List (String × FSNode) :=
  match cs with
  | [] => []
  | (n2, m) :: rest =>
      if n2 = name then (n2, n) :: rest else (n2, m) :: replaceChild rest name n

/-- `Path.mkdir(exist_ok=True, parents=True)`: create the directory and all
missing ancestors; an existing directory anywhere on the path is accepted, a
file anywhere on the path is an error. -/
def mkdirp : FSNode → List String → Option FSNode
  | .dir cs, [] => some (.dir cs)
  | .file _, [] => none
  | .file _, _ :: _ => none
  | .dir cs, name :: rest =>
      match lookupChild cs name with
      | some m =>
          match mkdirp m rest with
          | some m2 => some (.dir (replaceChild cs name m2))
          | none => none
      | none =>
          match mkdirp (.dir []) rest with
          | some m2 => some (.dir (cs ++ [(name, m2)]))
          | none => none

/-- Merge the source directory entries `scs` into the destination child list
`dcs`, as `shutil.copytree(..., dirs_exist_ok=True)` does: files overwrite
files, directories merge recursively into directories, a file/directory
mismatch raises (`none`), and new entries are created. -/
def copyChildren (scs dcs : List (String × FSNode)) :
    Option (List (String × FSNode)) :=
  match scs with
  | [] => some dcs
  | (name, .file c) :: rest =>
      match lookupChild dcs name with
      | some (.dir _) => none
      | some (.file _) => copyChildren rest (replaceChild dcs name (.file c))
      | none => copyChildren rest (dcs ++ [(name, .file c)])
  | (name, .dir scs2) :: rest =>
      match lookupChild dcs name with
      | some (.file _) => none
      | some (.dir dcs2) =>
          match copyChildren scs2 dcs2 with
          | some merged => copyChildren rest (replaceChild dcs name (.dir merged))
          | none => none
      | none =>
          match copyChildren scs2 [] with
          | some merged => copyChildren rest (dcs ++ [(name, .dir merged)])
          | none => none

/-- `shutil.copytree(source, destination, dirs_exist_ok=True)` at the node
level: both endpoints must be directories. -/
def copyInto (src dst : FSNode) : Option FSNode :=
  match src, dst with
  | .dir scs, .dir dcs => (copyChildren scs dcs).map .dir
  | .dir _, .file _ => none
  | .file _, _ => none

/-- Node stored at a path. -/
def getNode : FSNode → List String → Option FSNode
  | n, [] => some n
  | .file _, _ :: _ => none
  | .dir cs, name :: rest =>
      match lookupChild cs name with
      | some m => getNode m rest
      | none => none

/-- Replace the node stored at an existing path. -/
def setNode : FSNode → List String → FSNode → Option FSNode
  | _, [], n => some n
  | .file _, _ :: _, _ => none
  | .dir cs, name :: rest, n =>
      match lookupChild cs name with
      | some m =>
          match setNode m rest n with
          | some m2 => some (.dir (replaceChild cs name m2))
          | none => none
      | none => none

/-- `copy_template_files(destination, source)` over a filesystem rooted at
`fs`: `destination.mkdir(exist_ok=True, parents=True)` then
`shutil.copytree(source, destination, dirs_exist_ok=True)`. -/
def copy_template_files (fs : FSNode) (destination : List String)
    (source : FSNode) : Option FSNode :=
  match mkdirp fs destination with
  | none => none
  | some fs1 =>
      match getNode fs1 destination with
      | some dstNode =>
          match copyInto source dstNode with
          | some merged => setNode fs1 destination merged
          | none => none
      | none => none

theorem lookupChild_replaceChild_found (cs : List (String × FSNode)) (name : String)
    (m n : FSNode) (h : lookupChild cs name = some m) :
    lookupChild (replaceChild cs name n) name = some n := by
  induction cs with
  | nil => cases h
  | cons p rest ih =>
      obtain ⟨n2, m2⟩ := p
      by_cases h2 : n2 = name
      · simp [replaceChild, lookupChild, h2]
      · simp only [lookupChild, if_neg h2] at h
        simp [replaceChild, lookupChild, h2, ih h]

theorem replaceChild_replaceChild (cs : List (String × FSNode)) (name : String)
    (n n2 : FSNode) :
    replaceChild (replaceChild cs name n) name n2 = replaceChild cs name n2 := by
  induction cs with
  | nil => rfl
  | cons p rest ih =>
      obtain ⟨k2, m2⟩ := p
      by_cases h2 : k2 = name
      · simp [replaceChild, h2]
      · simp [replaceChild, h2, ih]

theorem lookupChild_append_none (cs l : List (String × FSNode)) (name : String)
    (h : lookupChild cs name = none) :
    lookupChild (cs ++ l) name = lookupChild l name := by
  induction cs with
  | nil => rfl
  | cons p rest ih =>
      obtain ⟨k2, m2⟩ := p
      by_cases h2 : k2 = name
      · simp [lookupChild, h2] at h
      · simp only [lookupChild, if_neg h2] at h
        simp [lookupChild, h2, ih h]

theorem replaceChild_append_none (cs l : List (String × FSNode)) (name : String)
    (v : FSNode) (h : lookupChild cs name = none) :
    replaceChild (cs ++ l) name v = cs ++ replaceChild l name v := by
  induction cs with
  | nil => rfl
  | cons p rest ih =>
      obtain ⟨k2, m2⟩ := p
      by_cases h2 : k2 = name
      · simp [lookupChild, h2] at h
      · simp only [lookupChild, if_neg h2] at h
        simp [replaceChild, h2, ih h]

/-- Creating a directory tree that `mkdirp` already produced changes
nothing: `Path.mkdir(exist_ok=True, parents=True)` is idempotent. -/
theorem mkdirp_idem (dest : List String) (fs fs1 : FSNode)
    (h : mkdirp fs dest = some fs1) : mkdirp fs1 dest = some fs1 := by
  induction dest generalizing fs fs1 with
  | nil =>
      cases fs with
      | file c => cases h
      | dir cs =>
          simp only [mkdirp, Option.some.injEq] at h
          subst h
          rfl
  | cons name rest ih =>
      cases fs with
      | file c => cases h
      | dir cs =>
          simp only [mkdirp] at h
          cases hl : lookupChild cs name with
          | some m =>
              simp only [hl] at h
              cases hm : mkdirp m rest with
              | none => simp [hm] at h
              | some m2 =>
                  simp only [hm, Option.some.injEq] at h
                  subst h
                  have hl2 := lookupChild_replaceChild_found cs name m m2 hl
                  simp only [mkdirp, hl2, ih m m2 hm, replaceChild_replaceChild]
          | none =>
              simp only [hl] at h
              cases hm : mkdirp (.dir []) rest with
              | none => simp [hm] at h
              | some m2 =>
                  simp only [hm, Option.some.injEq] at h
                  subst h
                  have hl2 : lookupChild (cs ++ [(name, m2)]) name = some m2 := by
                    rw [lookupChild_append_none cs [(name, m2)] name hl]
                    simp [lookupChild]
                  have hrep : replaceChild (cs ++ [(name, m2)]) name m2 =
                      cs ++ [(name, m2)] := by
                    rw [replaceChild_append_none cs [(name, m2)] name m2 hl]
                    simp [replaceChild]
                  simp only [mkdirp, hl2, ih (.dir []) m2 hm, hrep]

/-- C9: the template copy tolerates a pre-created destination: running
`copy_template_files` on a filesystem where the destination directory chain
was already created (by the same `mkdir(exist_ok=True, parents=True)` that a
fresh run performs, so the destination pre-exists as an empty directory)
produces exactly the same filesystem — same success, same resulting file set
— as running it on the filesystem without the pre-created destination. -/
theorem copy_template_files_idem (fs fs1 : FSNode) (dest : List String)
    (source : FSNode) (h : mkdirp fs dest = some fs1) :
    copy_template_files fs1 dest source = copy_template_files fs dest source := by
  unfold copy_template_files
  rw [h, mkdirp_idem dest fs fs1 h]

/-- The default Template Source Set's directory shape
(`src/tasks/hello.py`, `src/flows/hello_world.py`), with abbreviated file
contents, used as a concrete copy source. -/
def sampleTemplate : FSNode :=
  .dir [("src", .dir [
    ("tasks", .dir [("hello.py", .file "from prefect import task")]),
    ("flows", .dir [("hello_world.py", .file "from prefect import flow")])])]

theorem copy_template_files_idem_witness :
    mkdirp (.dir []) ["demo"] = some (.dir [("demo", .dir [])]) ∧
    copy_template_files (.dir [("demo", .dir [])]) ["demo"] sampleTemplate =
      copy_template_files (.dir []) ["demo"] sampleTemplate :=
  ⟨rfl, copy_template_files_idem (.dir []) (.dir [("demo", .dir [])]) ["demo"]
    sampleTemplate rfl⟩

end PrefectInit
